import Mathlib

/-!
Verification development for the `raft` example repository.

The repository's own sources (`src/cpp/template/src/ivf_flat_example.cu`,
`src/cpp/template/src/cagra_example.cu`) are thin drivers: they parse four
positional command-line arguments with `std::atoi`, generate a dataset, and
call into the external RAFT library's `ivf_flat::build/search` and
`cagra::build/search`.  The driver code (argument handling, the hard-coded
index/search parameters, the control flow of `main` and of
`*_build_search_simple`) is embedded directly from the source.  The library
routines the drivers call (distance metric, partition-index build/search,
proximity-graph build/search, dataset generation) are not part of the
repository snapshot; those are modelled from the specification, as marked on
each definition.

Vectors are modelled with integer coordinates (`List Int`); the distance is
the squared Euclidean metric of the spec, computed exactly.
-/
/-- A vector: an ordered sequence of fixed-width numeric coordinates.
Coordinates are modelled as integers so all distances are exact. -/
abbrev Vec := List Int

/-- Modelled from the spec: the squared-Euclidean dissimilarity between two
vectors, `Σ (aᵢ - bᵢ)²`, total on the zipped (common-length) portion. -/
def sqDist (a b : Vec) : Int :=
  ((a.zip b).map (fun p => (p.1 - p.2) ^ 2)).sum

/-- Modelled from the spec: `distance(a, b)`, which fails (returns `none`)
exactly on dimension mismatch and otherwise yields the squared-Euclidean
distance. -/
def distance (a b : Vec) : Option Int :=
  if a.length = b.length then some (sqDist a b) else none

/-- The ranking order on dataset ids used everywhere by the modelled search
procedures: order first by the key value `f` (a distance), breaking ties by
ascending id, as the spec requires for determinism. -/
def keyLe (f : Nat → Int) (i j : Nat) : Prop :=
  f i < f j ∨ (f i = f j ∧ i ≤ j)

/-- Strict version of `keyLe`. -/
def keyLt (f : Nat → Int) (i j : Nat) : Prop :=
  f i < f j ∨ (f i = f j ∧ i < j)

instance (f : Nat → Int) : DecidableRel (keyLe f) := fun i j => by
  unfold keyLe; exact inferInstance

instance (f : Nat → Int) : DecidableRel (keyLt f) := fun i j => by
  unfold keyLt; exact inferInstance

instance (f : Nat → Int) : IsTotal Nat (keyLe f) := by
  constructor
  intro i j
  rcases lt_trichotomy (f i) (f j) with h | h | h
  · exact Or.inl (Or.inl h)
  · rcases Nat.le_total i j with hij | hij
    · exact Or.inl (Or.inr ⟨h, hij⟩)
    · exact Or.inr (Or.inr ⟨h.symm, hij⟩)
  · exact Or.inr (Or.inl h)

instance (f : Nat → Int) : IsTrans Nat (keyLe f) := by
  constructor
  intro i j k hij hjk
  rcases hij with h1 | ⟨h1, h1'⟩ <;> rcases hjk with h2 | ⟨h2, h2'⟩
  · exact Or.inl (h1.trans h2)
  · exact Or.inl (lt_of_lt_of_eq h1 h2)
  · exact Or.inl (lt_of_eq_of_lt h1 h2)
  · exact Or.inr ⟨h1.trans h2, h1'.trans h2'⟩

/-- Sort a list of ids by the ranking order `keyLe f`. -/
def sortIds (f : Nat → Int) (S : List Nat) : List Nat :=
  S.insertionSort (keyLe f)

/-- Distance from the query to the dataset vector with id `i`
(out-of-range ids read the empty vector, they never occur in practice). -/
def distTo (ds : List Vec) (q : Vec) (i : Nat) : Int :=
  sqDist q (ds.getD i [])

/-- Modelled from the spec: the ids of the `k` candidates of `S` closest to
the query, distance ties broken by ascending id. -/
def topKIds (ds : List Vec) (q : Vec) (k : Nat) (S : List Nat) : List Nat :=
  (sortIds (distTo ds q) S).take k

/-- Modelled from the spec: a Search Result — the ordered list of
(dataset-id, distance) pairs for the `k` best candidates of the pool `S`. -/
def searchResult (ds : List Vec) (q : Vec) (k : Nat) (S : List Nat) :
    List (Nat × Int) :=
  (topKIds ds q k S).map (fun i => (i, distTo ds q i))

/-- The true k-nearest-neighbour ids, computed by brute force over the whole
dataset (the ground truth of the recall properties). -/
def trueTopK (ds : List Vec) (q : Vec) (k : Nat) : List Nat :=
  topKIds ds q k (List.range ds.length)

/-- Number of returned ids that are also true k-nearest neighbours. -/
def recallOverlap (r : List (Nat × Int)) (truth : List Nat) : Nat :=
  ((r.map Prod.fst).toFinset ∩ truth.toFinset).card

/-- A nonnegative fraction `num / den`, modelling the double-typed
training-fraction parameter with exact arithmetic. -/
structure Frac where
  num : Nat
  den : Nat
deriving DecidableEq

/-- The `ivf_flat::index_params` fields set by the example program
(`ivf_flat_example.cu`, lines 38-41). -/
structure IvfIndexParams where
  n_lists : Nat
  kmeans_trainset_fraction : Frac
deriving DecidableEq

/-- A built Partition Index: the dataset it owns, its centroids, and the
inverted lists of dataset ids. -/
structure IvfFlatIndex where
  data : List Vec
  centroids : List Vec
  lists : List (List Nat)
deriving DecidableEq

/-- Modelled from the spec: the k-means training subset — a
`trainset_fraction` share of the dataset (modelled as a deterministic
prefix), clamped to the full dataset whenever the fraction yields fewer
than `n_lists` points. -/
def ivfTrainset (ps : IvfIndexParams) (ds : List Vec) : List Vec :=
  let m := ps.kmeans_trainset_fraction.num * ds.length /
    ps.kmeans_trainset_fraction.den
  if m < ps.n_lists then ds else ds.take m

/-- Modelled from the spec: the `L` centroids produced by clustering the
training set.  Clustering detail is tunable policy (spec §9); the model
takes `L` distinct training points as centroids, re-seeding (padding) from
the first training point when the data is degenerate (fewer than `L`
distinct points), so that build always yields `L` centroids. -/
def ivfCentroids (ts : List Vec) (L : Nat) : List Vec :=
  ts.dedup.take L ++ List.replicate (L - ts.dedup.length) (ts.headD [])

/-- Modelled from the spec: assign a vector to its nearest centroid
(ties by lowest centroid id). -/
def ivfAssign (cs : List Vec) (v : Vec) : Nat :=
  (sortIds (fun j => sqDist v (cs.getD j [])) (List.range cs.length)).headD 0

/-- Modelled from the spec: populate the inverted lists — every dataset
vector (not just the training subset) goes to its nearest centroid's list. -/
def ivfLists (cs : List Vec) (ds : List Vec) : List (List Nat) :=
  (List.range cs.length).map (fun j =>
    (List.range ds.length).filter (fun i => decide (ivfAssign cs (ds.getD i []) = j)))

/-- Modelled from the spec: Partition Index build.  Fails (fatal) when the
dataset is empty or `n_lists > n`; `n_lists = 0` also fails, since
assignment to a nearest centroid needs at least one centroid. -/
def ivf_flat_build (ps : IvfIndexParams) (ds : List Vec) : Option IvfFlatIndex :=
  if ps.n_lists = 0 ∨ ds.length < ps.n_lists ∨ ds.isEmpty then none
  else
    let cs := ivfCentroids (ivfTrainset ps ds) ps.n_lists
    some ⟨ds, cs, ivfLists cs ds⟩

/-- Modelled from the spec: the `n_probes` nearest lists for a query, with
`n_probes` clamped to `[1, n_lists]`. -/
def ivfProbes (idx : IvfFlatIndex) (q : Vec) (n_probes : Nat) : List Nat :=
  (sortIds (fun j => sqDist q (idx.centroids.getD j []))
      (List.range idx.centroids.length)).take
    (max 1 (min n_probes idx.centroids.length))

/-- The candidate ids scanned by a Partition-Index search: the contents of
the probed lists. -/
def ivfCands (idx : IvfFlatIndex) (q : Vec) (n_probes : Nat) : List Nat :=
  ((ivfProbes idx q n_probes).map (fun j => idx.lists.getD j [])).flatten

/-- Modelled from the spec: Partition-Index search — scan the probed lists
and return the top-k by distance, ties by ascending id. -/
def ivf_flat_search (idx : IvfFlatIndex) (q : Vec) (n_probes k : Nat) :
    List (Nat × Int) :=
  searchResult idx.data q k (ivfCands idx q n_probes)

/-- A built Proximity-Graph Index: the dataset, the adjacency lists (one
per dataset id), and the recorded entry points for traversal. -/
structure CagraIndex where
  data : List Vec
  graph : List (List Nat)
  entries : List Nat
deriving DecidableEq

/-- Modelled from the spec: the candidate neighbour list of node `i` —
up to `D` other ids, nearest first (the exact pruning heuristic is tunable
policy per spec §9; the degree bound and no-self-loop are the contract). -/
def cagraNeighbors (ds : List Vec) (D i : Nat) : List Nat :=
  (sortIds (fun j => sqDist (ds.getD i []) (ds.getD j []))
      ((List.range ds.length).filter (fun j => decide (j ≠ i)))).take D

/-- Modelled from the spec: Proximity-Graph build.  Fails (fatal) when the
dataset is empty or `graph_degree ≥ n`; otherwise one bounded-degree
adjacency list per dataset id, entry point node `0`. -/
def cagra_build (ds : List Vec) (graph_degree : Nat) : Option CagraIndex :=
  if ds.length ≤ graph_degree ∨ ds.isEmpty then none
  else some ⟨ds, (List.range ds.length).map (cagraNeighbors ds graph_degree), [0]⟩

/-- State of the greedy best-first traversal: ids expanded so far, and the
frontier of candidate ids. -/
structure TravState where
  visited : List Nat
  frontier : List Nat

/-- Modelled from the spec: one traversal step — expand the unvisited
frontier candidate closest to the query (ties by id), inserting its graph
neighbours into the frontier; do nothing if no unvisited candidate is
left. -/
def travStep (g : CagraIndex) (q : Vec) (st : TravState) : TravState :=
  match (sortIds (distTo g.data q) st.frontier).filter
      (fun u => !decide (u ∈ st.visited)) with
  | [] => st
  | u :: _ => ⟨st.visited ++ [u], st.frontier ++ g.graph.getD u []⟩

/-- Modelled from the spec: run the traversal for a budget of `width`
expansion steps starting from the entry points. -/
def travRun (g : CagraIndex) (q : Vec) : Nat → TravState
  | 0 => ⟨[], g.entries⟩
  | b + 1 => travStep g q (travRun g q b)

/-- The ids visited by a traversal of the given width. -/
def cagraVisited (g : CagraIndex) (q : Vec) (width : Nat) : List Nat :=
  (travRun g q width).visited

/-- Modelled from the spec: Proximity-Graph search — the top-k by distance
(ties by ascending id) of the ids visited by the bounded traversal. -/
def cagra_search (g : CagraIndex) (q : Vec) (width k : Nat) :
    List (Nat × Int) :=
  searchResult g.data q k (cagraVisited g q width)

/-- Leading-digit accumulator of `std::atoi`: consume decimal digits until
the first non-digit. -/
def atoiDigits : List Char → Nat → Nat
  | [], acc => acc
  | c :: cs, acc =>
    if c.isDigit then atoiDigits cs (acc * 10 + (c.toNat - 48)) else acc

/-- `std::atoi` on a character list: skip leading whitespace, read an
optional sign and a digit prefix; any other text yields `0`.  Malformed
input is never reported — this is the conversion the example programs
apply to their arguments. -/
def atoiCore : List Char → Int
  | [] => 0
  | c :: cs =>
    if c.isWhitespace then atoiCore cs
    else if c = '-' then -(atoiDigits cs 0 : Int)
    else if c = '+' then (atoiDigits cs 0 : Int)
    else if c.isDigit then (atoiDigits (c :: cs) 0 : Int)
    else 0

/-- `std::atoi` as used on `argv[1..4]` in both example programs. -/
def atoi (s : String) : Int := atoiCore s.data

/-- How a program run terminates: usage error (printed usage, returned 1),
fatal (an uncaught library exception aborts the process — no clean exit
code), or ok (falls off the end of `main`, exit 0). -/
inductive RunStatus where
  | usage
  | fatal
  | ok
deriving DecidableEq

/-- The process exit code for each termination kind; `none` for the
abnormal termination of an uncaught exception. -/
def exitCode : RunStatus → Option Nat
  | RunStatus.usage => some 1
  | RunStatus.fatal => none
  | RunStatus.ok => some 0

/-- Observable outcome of one program run: how it ended, whether index
build / search work was started, and which index/search parameters the run
used (when it reached them). -/
structure RunOutcome where
  status : RunStatus
  buildAttempted : Bool
  searchAttempted : Bool
  nListsUsed : Option Nat
  trainFractionUsed : Option Frac
  nProbesUsed : Option Nat
deriving DecidableEq

/-- Modelled from the spec: the Dataset Source (`generate_dataset` of the
missing `common.cuh`).  Only the shape reaches the drivers: `n` vectors of
dimension `d`; the values are irrelevant to the driver control flow and are
modelled as zeros. -/
def generate_dataset (n d : Nat) : List Vec :=
  List.replicate n (List.replicate d 0)

/-- The `ivf_flat::index_params` fixed by `ivf_flat_example.cu`
lines 38-40: `n_lists = 1024`, `kmeans_trainset_fraction = 0.1`. -/
def ivfExampleIndexParams : IvfIndexParams :=
  { n_lists := 1024, kmeans_trainset_fraction := ⟨1, 10⟩ }

/-- `search_params.n_probes = 50`, fixed by `ivf_flat_example.cu` line 58. -/
def ivfExampleNProbes : Nat := 50

/-- `cagra_example.cu` line 42 uses default `cagra::index_params`; the
default graph degree comes from the external library (64 in its
documentation), not from the repository. -/
def cagraDefaultGraphDegree : Nat := 64

/-- `ivf_flat_build_search_simple` (`ivf_flat_example.cu` lines 31-69):
build with the fixed index parameters, then search every query with
`n_probes = 50` and print the results.  A failing build escapes as an
exception (fatal); no search happens then. -/
def ivf_flat_build_search_simple (ds _qs : List Vec) (_topk : Nat) : RunOutcome :=
  match ivf_flat_build ivfExampleIndexParams ds with
  | none =>
    ⟨RunStatus.fatal, true, false, some ivfExampleIndexParams.n_lists,
      some ivfExampleIndexParams.kmeans_trainset_fraction, none⟩
  | some _ =>
    ⟨RunStatus.ok, true, true, some ivfExampleIndexParams.n_lists,
      some ivfExampleIndexParams.kmeans_trainset_fraction,
      some ivfExampleNProbes⟩

/-- `cagra_build_search_simple` (`cagra_example.cu` lines 29-63): build with
default parameters, search, print. -/
def cagra_build_search_simple (ds _qs : List Vec) (_topk : Nat) : RunOutcome :=
  match cagra_build ds cagraDefaultGraphDegree with
  | none => ⟨RunStatus.fatal, true, false, none, none, none⟩
  | some _ => ⟨RunStatus.ok, true, true, none, none, none⟩

/-- `main` of `ivf_flat_example.cu` (lines 71-105): with `argc != 5` print
usage and return 1; otherwise parse the four arguments with `std::atoi`,
generate the dataset and queries, and run the build/search driver.
Negative parsed extents make the matrix allocations fail before any build
(modelled fatal). -/
def ivf_flat_main (argv : List String) : RunOutcome :=
  if argv.length ≠ 5 then
    ⟨RunStatus.usage, false, false, none, none, none⟩
  else if atoi (argv.getD 1 "") < 0 ∨ atoi (argv.getD 2 "") < 0 ∨
      atoi (argv.getD 3 "") < 0 ∨ atoi (argv.getD 4 "") < 0 then
    ⟨RunStatus.fatal, false, false, none, none, none⟩
  else
    ivf_flat_build_search_simple
      (generate_dataset (atoi (argv.getD 1 "")).toNat (atoi (argv.getD 3 "")).toNat)
      (generate_dataset (atoi (argv.getD 2 "")).toNat (atoi (argv.getD 3 "")).toNat)
      (atoi (argv.getD 4 "")).toNat

/-- `main` of `cagra_example.cu` (lines 65-98): same control flow with the
CAGRA driver. -/
def cagra_main (argv : List String) : RunOutcome :=
  if argv.length ≠ 5 then
    ⟨RunStatus.usage, false, false, none, none, none⟩
  else if atoi (argv.getD 1 "") < 0 ∨ atoi (argv.getD 2 "") < 0 ∨
      atoi (argv.getD 3 "") < 0 ∨ atoi (argv.getD 4 "") < 0 then
    ⟨RunStatus.fatal, false, false, none, none, none⟩
  else
    cagra_build_search_simple
      (generate_dataset (atoi (argv.getD 1 "")).toNat (atoi (argv.getD 3 "")).toNat)
      (generate_dataset (atoi (argv.getD 2 "")).toNat (atoi (argv.getD 3 "")).toNat)
      (atoi (argv.getD 4 "")).toNat

theorem sqDist_nil_left (b : Vec) : sqDist [] b = 0 := rfl

theorem sqDist_nil_right (a : Vec) : sqDist a [] = 0 := by
  cases a <;> rfl

theorem sqDist_cons (x y : Int) (a b : Vec) :
    sqDist (x :: a) (y :: b) = (x - y) ^ 2 + sqDist a b := rfl

theorem sqDist_comm (a b : Vec) : sqDist a b = sqDist b a := by
  induction a generalizing b with
  | nil => cases b <;> simp [sqDist_nil_left, sqDist_nil_right]
  | cons x a ih =>
    cases b with
    | nil => simp [sqDist_nil_left, sqDist_nil_right]
    | cons y b =>
      rw [sqDist_cons, sqDist_cons, ih]
      ring

theorem sqDist_nonneg (a b : Vec) : 0 ≤ sqDist a b := by
  induction a generalizing b with
  | nil => simp [sqDist_nil_left]
  | cons x a ih =>
    cases b with
    | nil => simp [sqDist_nil_right]
    | cons y b =>
      rw [sqDist_cons]
      exact add_nonneg (sq_nonneg _) (ih b)

theorem sqDist_self (a : Vec) : sqDist a a = 0 := by
  induction a with
  | nil => rfl
  | cons x a ih => rw [sqDist_cons, ih]; simp

theorem sqDist_eq_zero_iff {a b : Vec} (h : a.length = b.length) :
    sqDist a b = 0 ↔ a = b := by
  induction a generalizing b with
  | nil =>
    cases b with
    | nil => simp [sqDist_nil_left]
    | cons y b => simp at h
  | cons x a ih =>
    cases b with
    | nil => simp at h
    | cons y b =>
      rw [sqDist_cons]
      constructor
      · intro h0
        have h1 : (x - y) ^ 2 = 0 ∧ sqDist a b = 0 := by
          constructor
          · nlinarith [sq_nonneg (x - y), sqDist_nonneg a b]
          · nlinarith [sq_nonneg (x - y), sqDist_nonneg a b]
        have hx : x = y := by
          have := pow_eq_zero_iff (n := 2) (by norm_num) |>.mp h1.1
          linarith [this]
        have hab : a = b := (ih (by simpa using h)).mp h1.2
        rw [hx, hab]
      · intro he
        cases he
        rw [sqDist_self]; simp

theorem sqDist_pos_of_ne {a b : Vec} (h : a.length = b.length) (hne : a ≠ b) :
    0 < sqDist a b :=
  lt_of_le_of_ne (sqDist_nonneg a b)
    (fun h0 => hne ((sqDist_eq_zero_iff h).mp h0.symm))

theorem keyLe_refl (f : Nat → Int) (i : Nat) : keyLe f i i :=
  Or.inr ⟨rfl, le_refl i⟩

theorem keyLe_antisymm {f : Nat → Int} {i j : Nat}
    (h1 : keyLe f i j) (h2 : keyLe f j i) : i = j := by
  rcases h1 with h1 | ⟨h1, h1'⟩ <;> rcases h2 with h2 | ⟨h2, h2'⟩
  · exact absurd (h1.trans h2) (lt_irrefl _)
  · exact absurd (lt_of_lt_of_eq h1 h2) (lt_irrefl _)
  · exact absurd (lt_of_lt_of_eq h2 h1) (lt_irrefl _)
  · exact Nat.le_antisymm h1' h2'

theorem keyLt_iff (f : Nat → Int) (i j : Nat) :
    keyLt f i j ↔ keyLe f i j ∧ i ≠ j := by
  constructor
  · intro h
    rcases h with h | ⟨h, h'⟩
    · refine ⟨Or.inl h, ?_⟩
      intro he; exact absurd (he ▸ h) (lt_irrefl _)
    · exact ⟨Or.inr ⟨h, h'.le⟩, Nat.ne_of_lt h'⟩
  · rintro ⟨hle, hne⟩
    rcases hle with h | ⟨h, h'⟩
    · exact Or.inl h
    · exact Or.inr ⟨h, lt_of_le_of_ne h' hne⟩

theorem sortIds_perm (f : Nat → Int) (S : List Nat) : (sortIds f S).Perm S :=
  List.perm_insertionSort _ _

theorem sortIds_sorted (f : Nat → Int) (S : List Nat) :
    List.Sorted (keyLe f) (sortIds f S) :=
  List.sorted_insertionSort _ _

theorem mem_sortIds {f : Nat → Int} {S : List Nat} {x : Nat} :
    x ∈ sortIds f S ↔ x ∈ S :=
  (sortIds_perm f S).mem_iff

theorem sortIds_length (f : Nat → Int) (S : List Nat) :
    (sortIds f S).length = S.length :=
  (sortIds_perm f S).length_eq

theorem sortIds_nodup {f : Nat → Int} {S : List Nat} (h : S.Nodup) :
    (sortIds f S).Nodup :=
  (sortIds_perm f S).nodup_iff.mpr h

/-- Position characterisation: an id `x ∈ S` lands in the first `k` entries
of the ranked ordering of `S` exactly when fewer than `k` members of `S`
rank strictly below it. -/
theorem mem_take_sortIds_iff (f : Nat → Int) {S : List Nat} (hS : S.Nodup)
    {x : Nat} (hx : x ∈ S) (k : Nat) :
    x ∈ (sortIds f S).take k ↔
      S.countP (fun y => decide (keyLt f y x)) < k := by
  have hperm := sortIds_perm f S
  have hsorted := sortIds_sorted f S
  have hnod : (sortIds f S).Nodup := hperm.nodup_iff.mpr hS
  have hxs : x ∈ sortIds f S := mem_sortIds.mpr hx
  obtain ⟨a, b, hab⟩ := List.append_of_mem hxs
  rw [← hperm.countP_eq]
  rw [hab] at hsorted hnod ⊢
  obtain ⟨hna, hnxb, hdisj⟩ := List.nodup_append.mp hnod
  have hxa : x ∉ a := fun hmem => hdisj hmem (List.mem_cons_self _ _)
  have hxb : x ∉ b := (List.nodup_cons.mp hnxb).1
  obtain ⟨hpa, hpxb, hcross⟩ := List.pairwise_append.mp hsorted
  have hya : ∀ y ∈ a, keyLe f y x := fun y hy => hcross y hy x (List.mem_cons_self _ _)
  have hxz : ∀ z ∈ b, keyLe f x z := (List.pairwise_cons.mp hpxb).1
  have hcount :
      List.countP (fun y => decide (keyLt f y x)) (a ++ x :: b) = a.length := by
    rw [List.countP_append]
    have h1 : List.countP (fun y => decide (keyLt f y x)) a = a.length := by
      rw [List.countP_eq_length]
      intro y hy
      refine decide_eq_true ?_
      exact (keyLt_iff f y x).mpr ⟨hya y hy, fun he => hxa (he ▸ hy)⟩
    have h2 : List.countP (fun y => decide (keyLt f y x)) (x :: b) = 0 := by
      rw [List.countP_eq_zero]
      intro z hz hp
      have hlt : keyLt f z x := of_decide_eq_true hp
      obtain ⟨hle, hne⟩ := (keyLt_iff f z x).mp hlt
      rcases List.mem_cons.mp hz with rfl | hzb
      · exact hne rfl
      · exact hne (keyLe_antisymm hle (hxz z hzb))
    rw [h1, h2]
    omega
  rw [hcount]
  constructor
  · intro hmem
    by_contra hk
    push_neg at hk
    rw [List.take_append_eq_append_take, Nat.sub_eq_zero_of_le hk,
      List.take_zero, List.append_nil] at hmem
    exact hxa (List.take_subset _ _ hmem)
  · intro hk
    rw [List.take_append_eq_append_take]
    have h1 : List.take k a = a := List.take_of_length_le hk.le
    obtain ⟨m, hm⟩ : ∃ m, k - a.length = m + 1 := ⟨k - a.length - 1, by omega⟩
    rw [h1, hm, List.take_succ_cons]
    exact List.mem_append_right _ (List.mem_cons_self _ _)

/-- If `x` is among the top `k` of the larger candidate pool `T`, it is among
the top `k` of any sub-pool `S` containing it. -/
theorem mem_take_sortIds_of_subset (f : Nat → Int) {S T : List Nat}
    (hS : S.Nodup) (hT : T.Nodup) (hsub : S ⊆ T) {x k : Nat} (hx : x ∈ S)
    (hmem : x ∈ (sortIds f T).take k) : x ∈ (sortIds f S).take k := by
  rw [mem_take_sortIds_iff f hS hx k]
  rw [mem_take_sortIds_iff f hT (hsub hx) k] at hmem
  exact lt_of_le_of_lt (List.Subperm.countP_le _ (hS.subperm hsub)) hmem

theorem searchResult_length (ds : List Vec) (q : Vec) (k : Nat) (S : List Nat) :
    (searchResult ds q k S).length = min k S.length := by
  simp [searchResult, topKIds, sortIds_length]

theorem searchResult_sorted (ds : List Vec) (q : Vec) (k : Nat) (S : List Nat) :
    List.Sorted (fun p p' : Nat × Int => p.2 ≤ p'.2) (searchResult ds q k S) := by
  unfold searchResult topKIds
  have hp : List.Pairwise (keyLe (distTo ds q)) (List.take k (sortIds (distTo ds q) S)) :=
    List.Pairwise.sublist (List.take_sublist _ _) (sortIds_sorted _ _)
  refine List.Pairwise.map _ ?_ hp
  intro i j hij
  rcases hij with h | ⟨h, _⟩
  · exact le_of_lt h
  · exact le_of_eq h

/-- In a search result built from a duplicate-free candidate pool, two
entries with equal distance appear in ascending id order. -/
theorem searchResult_ties (ds : List Vec) (q : Vec) (k : Nat) {S : List Nat}
    (hS : S.Nodup) {i j : Nat}
    (hi : i < (searchResult ds q k S).length)
    (hj : j < (searchResult ds q k S).length) (hij : i < j)
    (heq : ((searchResult ds q k S).get ⟨i, hi⟩).2 =
           ((searchResult ds q k S).get ⟨j, hj⟩).2) :
    ((searchResult ds q k S).get ⟨i, hi⟩).1 <
      ((searchResult ds q k S).get ⟨j, hj⟩).1 := by
  have hnt : (topKIds ds q k S).Nodup :=
    List.Nodup.sublist (List.take_sublist _ _) (sortIds_nodup hS)
  have hst : List.Sorted (keyLe (distTo ds q)) (topKIds ds q k S) :=
    List.Pairwise.sublist (List.take_sublist _ _) (sortIds_sorted _ _)
  have hlen : (searchResult ds q k S).length = (topKIds ds q k S).length := by
    simp [searchResult]
  have hi' : i < (topKIds ds q k S).length := hlen ▸ hi
  have hj' : j < (topKIds ds q k S).length := hlen ▸ hj
  have hgi : (searchResult ds q k S).get ⟨i, hi⟩ =
      ((topKIds ds q k S).get ⟨i, hi'⟩, distTo ds q ((topKIds ds q k S).get ⟨i, hi'⟩)) := by
    simp [searchResult, List.get_eq_getElem, List.getElem_map]
  have hgj : (searchResult ds q k S).get ⟨j, hj⟩ =
      ((topKIds ds q k S).get ⟨j, hj'⟩, distTo ds q ((topKIds ds q k S).get ⟨j, hj'⟩)) := by
    simp [searchResult, List.get_eq_getElem, List.getElem_map]
  rw [hgi, hgj] at heq ⊢
  simp only at heq ⊢
  set u := (topKIds ds q k S).get ⟨i, hi'⟩ with hu
  set v := (topKIds ds q k S).get ⟨j, hj'⟩ with hv
  have hle : keyLe (distTo ds q) u v :=
    hst.rel_get_of_lt (a := ⟨i, hi'⟩) (b := ⟨j, hj'⟩) (by simpa using hij)
  have hne : u ≠ v := by
    intro he
    have := (hnt.get_inj_iff (i := ⟨i, hi'⟩) (j := ⟨j, hj'⟩)).mp he
    simp at this
    omega
  rcases hle with h | ⟨_, h⟩
  · exact absurd heq (ne_of_lt h)
  · exact lt_of_le_of_ne h hne

/-- The ids a search over pool `S` shares with the brute-force ground truth
are exactly the ids of `S` shared with the ground truth. -/
theorem topKIds_toFinset_inter (ds : List Vec) (q : Vec) (k : Nat)
    {S : List Nat} (hS : S.Nodup) (hsub : S ⊆ List.range ds.length) :
    (topKIds ds q k S).toFinset ∩ (trueTopK ds q k).toFinset =
      S.toFinset ∩ (trueTopK ds q k).toFinset := by
  apply Finset.Subset.antisymm
  · refine Finset.inter_subset_inter ?_ (Finset.Subset.refl _)
    intro x hx
    rw [List.mem_toFinset] at *
    exact mem_sortIds.mp (List.take_subset _ _ hx)
  · intro x hx
    rw [Finset.mem_inter, List.mem_toFinset, List.mem_toFinset] at hx
    rw [Finset.mem_inter, List.mem_toFinset, List.mem_toFinset]
    obtain ⟨hxS, hxK⟩ := hx
    refine ⟨?_, hxK⟩
    exact mem_take_sortIds_of_subset _ hS (List.nodup_range _) hsub hxS hxK

/-- Monotonic recall: enlarging a duplicate-free candidate pool never
decreases the overlap of the returned top-k with the brute-force truth. -/
theorem recallOverlap_mono (ds : List Vec) (q : Vec) (k : Nat)
    {S S' : List Nat} (hS : S.Nodup) (hS' : S'.Nodup) (hsub : S ⊆ S')
    (hsub' : S' ⊆ List.range ds.length) :
    recallOverlap (searchResult ds q k S) (trueTopK ds q k) ≤
      recallOverlap (searchResult ds q k S') (trueTopK ds q k) := by
  have hmap : ∀ S₀ : List Nat,
      (searchResult ds q k S₀).map Prod.fst = topKIds ds q k S₀ := by
    intro S₀; simp [searchResult, Function.comp_def]
  unfold recallOverlap
  rw [hmap, hmap, topKIds_toFinset_inter ds q k hS (hsub.trans hsub'),
    topKIds_toFinset_inter ds q k hS' hsub']
  refine Finset.card_le_card (Finset.inter_subset_inter ?_ (Finset.Subset.refl _))
  intro x hx
  rw [List.mem_toFinset] at *
  exact hsub hx

theorem ivf_flat_build_eq_some {ps : IvfIndexParams} {ds : List Vec}
    {idx : IvfFlatIndex} (hb : ivf_flat_build ps ds = some idx) :
    ps.n_lists ≠ 0 ∧ ps.n_lists ≤ ds.length ∧ ds ≠ [] ∧
      idx = ⟨ds, ivfCentroids (ivfTrainset ps ds) ps.n_lists,
             ivfLists (ivfCentroids (ivfTrainset ps ds) ps.n_lists) ds⟩ := by
  unfold ivf_flat_build at hb
  split at hb
  · exact absurd hb (by simp)
  · next h =>
    push_neg at h
    obtain ⟨h1, h2, h3⟩ := h
    refine ⟨h1, by omega, by simpa using h3, ?_⟩
    exact (Option.some_injective _ hb).symm

theorem ivf_flat_build_eq_none {ps : IvfIndexParams} {ds : List Vec} :
    ivf_flat_build ps ds = none ↔
      ps.n_lists = 0 ∨ ds.length < ps.n_lists ∨ ds = [] := by
  unfold ivf_flat_build
  split
  · next h => simpa using h
  · next h => simp only [reduceCtorEq, false_iff]; simpa using h

theorem ivfCentroids_length (ts : List Vec) (L : Nat) :
    (ivfCentroids ts L).length = L := by
  have h := ts.dedup.length_take L
  simp only [ivfCentroids, List.length_append, List.length_replicate]
  omega

theorem ivfLists_length (cs ds : List Vec) :
    (ivfLists cs ds).length = cs.length := by
  simp [ivfLists]

theorem sortIds_headD_mem {f : Nat → Int} {S : List Nat} (h : S ≠ []) :
    (sortIds f S).headD 0 ∈ S := by
  cases hs : sortIds f S with
  | nil =>
    exact absurd (List.length_eq_zero.mp (by rw [← sortIds_length f S, hs]; rfl)) h
  | cons c t =>
    have : c ∈ sortIds f S := by rw [hs]; exact List.mem_cons_self _ _
    simpa [hs] using mem_sortIds.mp this

theorem sortIds_headD_min {f : Nat → Int} {S : List Nat} {y : Nat} (hy : y ∈ S) :
    keyLe f ((sortIds f S).headD 0) y := by
  cases hs : sortIds f S with
  | nil =>
    have : S = [] := List.length_eq_zero.mp (by rw [← sortIds_length f S, hs]; rfl)
    exact absurd (this ▸ hy) (List.not_mem_nil y)
  | cons c t =>
    have hsort := sortIds_sorted f S
    rw [hs] at hsort
    have hy' : y ∈ c :: t := by rw [← hs]; exact mem_sortIds.mpr hy
    rcases List.mem_cons.mp hy' with rfl | hyt
    · simpa using keyLe_refl f y
    · simpa using (List.pairwise_cons.mp hsort).1 y hyt

theorem ivfAssign_lt {cs : List Vec} (h : cs ≠ []) (v : Vec) :
    ivfAssign cs v < cs.length := by
  unfold ivfAssign
  have hne : List.range cs.length ≠ [] := by
    have : cs.length ≠ 0 := fun h0 => h (List.length_eq_zero.mp h0)
    simp [List.range_eq_nil, this]
  exact List.mem_range.mp (sortIds_headD_mem hne)

/-- If centroid `j` is at distance zero from `v` and every other centroid is
at positive distance, `v` is assigned to list `j`. -/
theorem ivfAssign_eq_of_strict {cs : List Vec} {v : Vec} {j : Nat}
    (hj : j < cs.length) (h0 : sqDist v (cs.getD j []) = 0)
    (hpos : ∀ j', j' < cs.length → j' ≠ j → 0 < sqDist v (cs.getD j' [])) :
    ivfAssign cs v = j := by
  unfold ivfAssign
  have hne : List.range cs.length ≠ [] := by
    have : cs.length ≠ 0 := by omega
    simp [List.range_eq_nil, this]
  set f := fun j' => sqDist v (cs.getD j' []) with hf
  set h := (sortIds f (List.range cs.length)).headD 0 with hh
  have hhlt : h < cs.length := List.mem_range.mp (sortIds_headD_mem hne)
  by_contra hne2
  have hlt : 0 < f h := hpos h hhlt hne2
  have hmin := sortIds_headD_min (f := f) (List.mem_range.mpr hj)
  rw [← hh] at hmin
  have hfj : f j = 0 := h0
  rcases hmin with hmin | ⟨hmin, _⟩
  · rw [hfj] at hmin; linarith
  · rw [hfj] at hmin; linarith

theorem mem_ivfLists {cs ds : List Vec} {j : Nat} (hj : j < cs.length) (i : Nat) :
    i ∈ (ivfLists cs ds).getD j [] ↔
      i < ds.length ∧ ivfAssign cs (ds.getD i []) = j := by
  unfold ivfLists
  rw [List.getD_eq_getElem _ _ (by simpa using hj)]
  rw [List.getElem_map]
  simp [List.mem_filter, List.mem_range]

theorem ivfLists_getD_nil {cs ds : List Vec} {j : Nat} (hj : cs.length ≤ j) :
    (ivfLists cs ds).getD j [] = [] := by
  apply List.getD_eq_default
  simpa [ivfLists]

theorem ivfLists_getD_nodup (cs ds : List Vec) (j : Nat) :
    ((ivfLists cs ds).getD j []).Nodup := by
  rcases lt_or_le j cs.length with hj | hj
  · unfold ivfLists
    rw [List.getD_eq_getElem _ _ (by simpa using hj), List.getElem_map]
    exact (List.nodup_range _).filter _
  · rw [ivfLists_getD_nil hj]; exact List.nodup_nil

theorem ivfLists_disjoint {cs ds : List Vec} {j j' : Nat} (hne : j ≠ j') :
    List.Disjoint ((ivfLists cs ds).getD j []) ((ivfLists cs ds).getD j' []) := by
  intro i hi hi'
  rcases lt_or_le j cs.length with hj | hj
  · rcases lt_or_le j' cs.length with hj' | hj'
    · have h1 := (mem_ivfLists hj i).mp hi
      have h2 := (mem_ivfLists hj' i).mp hi'
      exact hne (h1.2.symm.trans h2.2)
    · rw [ivfLists_getD_nil hj'] at hi'; exact absurd hi' (List.not_mem_nil i)
  · rw [ivfLists_getD_nil hj] at hi; exact absurd hi (List.not_mem_nil i)

theorem ivfProbes_nodup (idx : IvfFlatIndex) (q : Vec) (p : Nat) :
    (ivfProbes idx q p).Nodup :=
  List.Nodup.sublist (List.take_sublist _ _) (sortIds_nodup (List.nodup_range _))

theorem ivfCands_nodup {idx : IvfFlatIndex} {cs ds : List Vec}
    (hl : idx.lists = ivfLists cs ds) (q : Vec) (p : Nat) :
    (ivfCands idx q p).Nodup := by
  rw [ivfCands, hl, List.nodup_flatten]
  constructor
  · intro l hlm
    obtain ⟨j, hj, rfl⟩ := List.mem_map.mp hlm
    exact ivfLists_getD_nodup cs ds j
  · refine List.Pairwise.map _ ?_ (ivfProbes_nodup idx q p)
    intro j j' hjj'
    exact ivfLists_disjoint hjj'

theorem ivfCands_subset {idx : IvfFlatIndex} {cs ds : List Vec}
    (hl : idx.lists = ivfLists cs ds) (q : Vec) (p : Nat) :
    ivfCands idx q p ⊆ List.range ds.length := by
  intro i hi
  rw [ivfCands, hl] at hi
  obtain ⟨l, hlm, hil⟩ := List.mem_flatten.mp hi
  obtain ⟨j, hj, rfl⟩ := List.mem_map.mp hlm
  rcases lt_or_le j cs.length with hjc | hjc
  · exact List.mem_range.mpr ((mem_ivfLists hjc i).mp hil).1
  · rw [ivfLists_getD_nil hjc] at hil; exact absurd hil (List.not_mem_nil i)

theorem ivfCands_mono (idx : IvfFlatIndex) (q : Vec) {p p' : Nat}
    (hpp : p ≤ p') : ivfCands idx q p ⊆ ivfCands idx q p' := by
  intro i hi
  unfold ivfCands at *
  obtain ⟨l, hlm, hil⟩ := List.mem_flatten.mp hi
  obtain ⟨j, hj, rfl⟩ := List.mem_map.mp hlm
  refine List.mem_flatten.mpr ⟨_, List.mem_map_of_mem _ ?_, hil⟩
  unfold ivfProbes at *
  set L := idx.centroids.length
  set s := sortIds (fun j => sqDist q (idx.centroids.getD j [])) (List.range L)
  have hmm : max 1 (min p L) ≤ max 1 (min p' L) := by omega
  have heq : List.take (max 1 (min p L)) s =
      List.take (max 1 (min p L)) (List.take (max 1 (min p' L)) s) := by
    rw [List.take_take, inf_eq_left.mpr hmm]
  rw [heq] at hj
  exact List.take_subset _ _ hj

theorem ivf_build_centroids_ne_nil {ps : IvfIndexParams} {ds : List Vec}
    {idx : IvfFlatIndex} (hb : ivf_flat_build ps ds = some idx) :
    idx.centroids ≠ [] := by
  obtain ⟨hL0, hLn, hne, hidx⟩ := ivf_flat_build_eq_some hb
  subst hidx
  intro h
  have hlen := ivfCentroids_length (ivfTrainset ps ds) ps.n_lists
  have h' : ivfCentroids (ivfTrainset ps ds) ps.n_lists = [] := h
  rw [h'] at hlen
  exact hL0 hlen.symm

/-- Every dataset id of a built Partition Index lies in exactly one
inverted list. -/
theorem ivf_partition {ps : IvfIndexParams} {ds : List Vec}
    {idx : IvfFlatIndex} (hb : ivf_flat_build ps ds = some idx) :
    ∀ i, i < ds.length →
      ∃! j, j < idx.lists.length ∧ i ∈ idx.lists.getD j [] := by
  have hcne := ivf_build_centroids_ne_nil hb
  obtain ⟨hL0, hLn, hne, hidx⟩ := ivf_flat_build_eq_some hb
  subst hidx
  intro i hi
  simp only [ivfLists_length]
  set cs := ivfCentroids (ivfTrainset ps ds) ps.n_lists with hcs
  refine ⟨ivfAssign cs (ds.getD i []), ⟨ivfAssign_lt hcne _, ?_⟩, ?_⟩
  · exact (mem_ivfLists (ivfAssign_lt hcne _) i).mpr ⟨hi, rfl⟩
  · rintro j ⟨hj, hmem⟩
    exact ((mem_ivfLists hj i).mp hmem).2.symm

/-- The union of the inverted lists of a built Partition Index is exactly
the id range `[0, n)`. -/
theorem ivf_coverage {ps : IvfIndexParams} {ds : List Vec}
    {idx : IvfFlatIndex} (hb : ivf_flat_build ps ds = some idx) :
    ∀ i, (∃ j, j < idx.lists.length ∧ i ∈ idx.lists.getD j []) ↔
      i < ds.length := by
  intro i
  constructor
  · rintro ⟨j, hj, hmem⟩
    obtain ⟨hL0, hLn, hne, hidx⟩ := ivf_flat_build_eq_some hb
    subst hidx
    simp only [ivfLists_length] at hj
    exact ((mem_ivfLists hj i).mp hmem).1
  · intro hi
    obtain ⟨j, hj, -⟩ := ivf_partition hb i hi
    exact ⟨j, hj⟩

theorem ivfCands_full_length {ps : IvfIndexParams} {ds : List Vec}
    {idx : IvfFlatIndex} (hb : ivf_flat_build ps ds = some idx) (q : Vec)
    {p : Nat} (hp : ps.n_lists ≤ p) : (ivfCands idx q p).length = ds.length := by
  have hcne := ivf_build_centroids_ne_nil hb
  obtain ⟨hL0, hLn, hne, hidx⟩ := ivf_flat_build_eq_some hb
  have hcl : idx.centroids.length = ps.n_lists := by
    rw [hidx]; exact ivfCentroids_length _ _
  have hll : idx.lists = ivfLists idx.centroids ds := by rw [hidx]
  have hprobes : ivfProbes idx q p =
      sortIds (fun j => sqDist q (idx.centroids.getD j []))
        (List.range idx.centroids.length) := by
    unfold ivfProbes
    have h1 : max 1 (min p idx.centroids.length) = idx.centroids.length := by
      omega
    rw [h1]
    exact List.take_of_length_le (by rw [sortIds_length, List.length_range])
  have hmem : ∀ i, i ∈ ivfCands idx q p ↔ i < ds.length := by
    intro i
    constructor
    · intro hi
      exact List.mem_range.mp (ivfCands_subset hll q p hi)
    · intro hi
      set cs := idx.centroids
      have hjlt : ivfAssign cs (ds.getD i []) < cs.length :=
        ivfAssign_lt (by rw [hidx] at *; exact hcne) _
      refine List.mem_flatten.mpr ⟨(ivfLists cs ds).getD (ivfAssign cs (ds.getD i [])) [], ?_, ?_⟩
      · rw [← hll]
        refine List.mem_map_of_mem _ ?_
        rw [hprobes]
        exact mem_sortIds.mpr (List.mem_range.mpr hjlt)
      · exact (mem_ivfLists hjlt i).mpr ⟨hi, rfl⟩
  have hnd := ivfCands_nodup hll q p
  have h1 : (ivfCands idx q p).toFinset = (List.range ds.length).toFinset := by
    ext i
    simp only [List.mem_toFinset, hmem, List.mem_range]
  calc (ivfCands idx q p).length
      = (ivfCands idx q p).toFinset.card := (List.toFinset_card_of_nodup hnd).symm
    _ = (List.range ds.length).toFinset.card := by rw [h1]
    _ = ds.length := by
        rw [List.toFinset_card_of_nodup (List.nodup_range _), List.length_range]

theorem ivfTrainset_subset (ps : IvfIndexParams) (ds : List Vec) :
    ivfTrainset ps ds ⊆ ds := by
  unfold ivfTrainset
  dsimp only
  split
  · exact fun v hv => hv
  · exact List.take_subset _ _

theorem ivfCentroids_nondegenerate {ts : List Vec} {L : Nat}
    (hnd : L ≤ ts.dedup.length) :
    ivfCentroids ts L = ts.dedup.take L := by
  unfold ivfCentroids
  rw [Nat.sub_eq_zero_of_le hnd]
  simp

/-- With non-degenerate data (at least `n_lists` distinct training points,
uniform dimensionality), no inverted list of a built Partition Index is
empty. -/
theorem ivf_lists_nonempty {ps : IvfIndexParams} {ds : List Vec}
    {idx : IvfFlatIndex} (hb : ivf_flat_build ps ds = some idx) (d : Nat)
    (hdim : ∀ v ∈ ds, v.length = d)
    (hnd : ps.n_lists ≤ (ivfTrainset ps ds).dedup.length) :
    ∀ j, j < idx.lists.length → idx.lists.getD j [] ≠ [] := by
  obtain ⟨hL0, hLn, hne, hidx⟩ := ivf_flat_build_eq_some hb
  subst hidx
  intro j hj
  simp only [ivfLists_length] at hj
  have hcs_eq : ivfCentroids (ivfTrainset ps ds) ps.n_lists =
      (ivfTrainset ps ds).dedup.take ps.n_lists := ivfCentroids_nondegenerate hnd
  have hcsnd : (ivfCentroids (ivfTrainset ps ds) ps.n_lists).Nodup := by
    rw [hcs_eq]
    exact List.Nodup.sublist (List.take_sublist _ _) (List.nodup_dedup _)
  have hcssub : ivfCentroids (ivfTrainset ps ds) ps.n_lists ⊆ ds := by
    rw [hcs_eq]
    intro v hv
    exact ivfTrainset_subset ps ds (List.mem_dedup.mp (List.take_subset _ _ hv))
  have hcget : (ivfCentroids (ivfTrainset ps ds) ps.n_lists).getD j [] =
      (ivfCentroids (ivfTrainset ps ds) ps.n_lists)[j] :=
    List.getD_eq_getElem _ _ hj
  have hcmem : (ivfCentroids (ivfTrainset ps ds) ps.n_lists)[j] ∈ ds :=
    hcssub (List.getElem_mem hj)
  obtain ⟨i, hi, hgi⟩ := List.getElem_of_mem hcmem
  have hdsget : ds.getD i [] = (ivfCentroids (ivfTrainset ps ds) ps.n_lists)[j] := by
    rw [List.getD_eq_getElem _ _ hi, hgi]
  have hassign :
      ivfAssign (ivfCentroids (ivfTrainset ps ds) ps.n_lists) (ds.getD i []) = j := by
    rw [hdsget]
    refine ivfAssign_eq_of_strict hj ?_ ?_
    · rw [hcget, sqDist_self]
    · intro j' hj' hne'
      have hget' : (ivfCentroids (ivfTrainset ps ds) ps.n_lists).getD j' [] =
          (ivfCentroids (ivfTrainset ps ds) ps.n_lists)[j'] :=
        List.getD_eq_getElem _ _ hj'
      have hmem' : (ivfCentroids (ivfTrainset ps ds) ps.n_lists)[j'] ∈ ds :=
        hcssub (List.getElem_mem hj')
      have hneq : (ivfCentroids (ivfTrainset ps ds) ps.n_lists)[j] ≠
          (ivfCentroids (ivfTrainset ps ds) ps.n_lists)[j'] := by
        intro he
        exact hne' ((hcsnd.getElem_inj_iff.mp he).symm)
      rw [hget']
      exact sqDist_pos_of_ne ((hdim _ hcmem).trans (hdim _ hmem').symm) hneq
  intro hnil
  have hmm : i ∈ (ivfLists (ivfCentroids (ivfTrainset ps ds) ps.n_lists) ds).getD j [] :=
    (mem_ivfLists hj i).mpr ⟨hi, hassign⟩
  rw [hnil] at hmm
  exact List.not_mem_nil i hmm

theorem cagra_build_eq_some {ds : List Vec} {D : Nat} {g : CagraIndex}
    (hb : cagra_build ds D = some g) :
    D < ds.length ∧ ds ≠ [] ∧
      g = ⟨ds, (List.range ds.length).map (cagraNeighbors ds D), [0]⟩ := by
  unfold cagra_build at hb
  split at hb
  · exact absurd hb (by simp)
  · next h =>
    push_neg at h
    obtain ⟨h1, h2⟩ := h
    exact ⟨by omega, by simpa using h2, (Option.some_injective _ hb).symm⟩

theorem cagra_build_eq_none {ds : List Vec} {D : Nat} :
    cagra_build ds D = none ↔ ds.length ≤ D ∨ ds = [] := by
  unfold cagra_build
  split
  · next h => simpa using h
  · next h => simp only [reduceCtorEq, false_iff]; simpa using h

theorem cagraNeighbors_length_le (ds : List Vec) (D i : Nat) :
    (cagraNeighbors ds D i).length ≤ D := by
  unfold cagraNeighbors
  calc (List.take D _).length ≤ D := by
        rw [List.length_take]; exact min_le_left _ _

theorem cagraNeighbors_subset (ds : List Vec) (D i : Nat) :
    cagraNeighbors ds D i ⊆ List.range ds.length := by
  intro j hj
  unfold cagraNeighbors at hj
  exact (List.mem_filter.mp (mem_sortIds.mp (List.take_subset _ _ hj))).1

theorem cagraNeighbors_no_self (ds : List Vec) (D i : Nat) :
    i ∉ cagraNeighbors ds D i := by
  intro hmem
  unfold cagraNeighbors at hmem
  have := (List.mem_filter.mp (mem_sortIds.mp (List.take_subset _ _ hmem))).2
  simp at this

theorem cagra_graph_getD_subset {ds : List Vec} {D : Nat} {g : CagraIndex}
    (hb : cagra_build ds D = some g) (u : Nat) :
    g.graph.getD u [] ⊆ List.range ds.length := by
  obtain ⟨hD, hne, hg⟩ := cagra_build_eq_some hb
  subst hg
  show ((List.range ds.length).map (cagraNeighbors ds D)).getD u [] ⊆ _
  rcases lt_or_le u ds.length with hu | hu
  · rw [List.getD_eq_getElem _ _ (by simpa using hu), List.getElem_map]
    simpa [List.getElem_range] using cagraNeighbors_subset ds D _
  · rw [List.getD_eq_default _ _ (by simpa using hu)]
    exact List.nil_subset _

theorem travStep_visited_sub (g : CagraIndex) (q : Vec) (st : TravState) :
    st.visited ⊆ (travStep g q st).visited := by
  cases hm : (sortIds (distTo g.data q) st.frontier).filter
      (fun u => !decide (u ∈ st.visited)) with
  | nil => simp [travStep, hm]
  | cons u rest =>
    simp only [travStep, hm]
    exact List.subset_append_left _ _

theorem travStep_inv {ds : List Vec} {D : Nat} {g : CagraIndex}
    (hb : cagra_build ds D = some g) (q : Vec) {st : TravState}
    (h : st.visited.Nodup ∧ st.visited ⊆ List.range ds.length ∧
      st.frontier ⊆ List.range ds.length) :
    (travStep g q st).visited.Nodup ∧
      (travStep g q st).visited ⊆ List.range ds.length ∧
      (travStep g q st).frontier ⊆ List.range ds.length := by
  obtain ⟨hnd, hvs, hfs⟩ := h
  cases hm : (sortIds (distTo g.data q) st.frontier).filter
      (fun u => !decide (u ∈ st.visited)) with
  | nil => simp only [travStep, hm]; exact ⟨hnd, hvs, hfs⟩
  | cons u rest =>
    have hu : u ∈ (sortIds (distTo g.data q) st.frontier).filter
        (fun u => !decide (u ∈ st.visited)) := by
      rw [hm]; exact List.mem_cons_self _ _
    obtain ⟨humem, hucond⟩ := List.mem_filter.mp hu
    have hunv : u ∉ st.visited := by
      simp only [Bool.not_eq_eq_eq_not, Bool.not_true] at hucond
      exact of_decide_eq_false hucond
    have huf : u ∈ st.frontier := mem_sortIds.mp humem
    simp only [travStep, hm]
    refine ⟨?_, ?_, ?_⟩
    · rw [List.nodup_append]
      refine ⟨hnd, by simp, ?_⟩
      intro a ha hau
      simp only [List.mem_singleton] at hau
      subst hau
      exact hunv ha
    · intro x hx
      rcases List.mem_append.mp hx with hx | hx
      · exact hvs hx
      · simp only [List.mem_singleton] at hx
        subst hx
        exact hfs huf
    · intro x hx
      rcases List.mem_append.mp hx with hx | hx
      · exact hfs hx
      · exact cagra_graph_getD_subset hb u hx

theorem travRun_inv {ds : List Vec} {D : Nat} {g : CagraIndex}
    (hb : cagra_build ds D = some g) (q : Vec) (b : Nat) :
    (travRun g q b).visited.Nodup ∧
      (travRun g q b).visited ⊆ List.range ds.length ∧
      (travRun g q b).frontier ⊆ List.range ds.length := by
  induction b with
  | zero =>
    obtain ⟨hD, hne, hg⟩ := cagra_build_eq_some hb
    refine ⟨List.nodup_nil, List.nil_subset _, ?_⟩
    subst hg
    show ([0] : List Nat) ⊆ _
    intro x hx
    simp only [List.mem_singleton] at hx
    subst hx
    exact List.mem_range.mpr (List.length_pos.mpr hne)
  | succ b ih => exact travStep_inv hb q ih

theorem cagraVisited_nodup {ds : List Vec} {D : Nat} {g : CagraIndex}
    (hb : cagra_build ds D = some g) (q : Vec) (w : Nat) :
    (cagraVisited g q w).Nodup :=
  (travRun_inv hb q w).1

theorem cagraVisited_subset {ds : List Vec} {D : Nat} {g : CagraIndex}
    (hb : cagra_build ds D = some g) (q : Vec) (w : Nat) :
    cagraVisited g q w ⊆ List.range ds.length :=
  (travRun_inv hb q w).2.1

theorem cagraVisited_mono (g : CagraIndex) (q : Vec) {w w' : Nat}
    (h : w ≤ w') : cagraVisited g q w ⊆ cagraVisited g q w' := by
  induction w' with
  | zero =>
    have : w = 0 := Nat.le_zero.mp h
    subst this
    exact fun x hx => hx
  | succ w' ih =>
    rcases Nat.lt_or_ge w (w' + 1) with hlt | hge
    · have hw : w ≤ w' := by omega
      refine (ih hw).trans ?_
      show (travRun g q w').visited ⊆ (travStep g q (travRun g q w')).visited
      exact travStep_visited_sub g q _
    · have : w = w' + 1 := by omega
      subst this
      exact fun x hx => hx

theorem ivf_bss_status (ds qs : List Vec) (k : Nat) :
    ((ivf_flat_build_search_simple ds qs k).status = RunStatus.ok ∨
      (ivf_flat_build_search_simple ds qs k).status = RunStatus.fatal) ∧
      (ivf_flat_build_search_simple ds qs k).buildAttempted = true ∧
      (ivf_flat_build_search_simple ds qs k).nListsUsed = some 1024 ∧
      (ivf_flat_build_search_simple ds qs k).trainFractionUsed = some ⟨1, 10⟩ := by
  unfold ivf_flat_build_search_simple
  cases ivf_flat_build ivfExampleIndexParams ds
  · exact ⟨Or.inr rfl, rfl, rfl, rfl⟩
  · exact ⟨Or.inl rfl, rfl, rfl, rfl⟩

theorem ivf_bss_fail {ds : List Vec}
    (h : ivf_flat_build ivfExampleIndexParams ds = none) (qs : List Vec) (k : Nat) :
    (ivf_flat_build_search_simple ds qs k).status = RunStatus.fatal ∧
      (ivf_flat_build_search_simple ds qs k).searchAttempted = false := by
  unfold ivf_flat_build_search_simple
  rw [h]
  exact ⟨rfl, rfl⟩

theorem cagra_bss_status (ds qs : List Vec) (k : Nat) :
    ((cagra_build_search_simple ds qs k).status = RunStatus.ok ∨
      (cagra_build_search_simple ds qs k).status = RunStatus.fatal) ∧
      (cagra_build_search_simple ds qs k).buildAttempted = true := by
  unfold cagra_build_search_simple
  cases cagra_build ds cagraDefaultGraphDegree
  · exact ⟨Or.inr rfl, rfl⟩
  · exact ⟨Or.inl rfl, rfl⟩

theorem cagra_bss_fail {ds : List Vec}
    (h : cagra_build ds cagraDefaultGraphDegree = none) (qs : List Vec) (k : Nat) :
    (cagra_build_search_simple ds qs k).status = RunStatus.fatal ∧
      (cagra_build_search_simple ds qs k).searchAttempted = false := by
  unfold cagra_build_search_simple
  rw [h]
  exact ⟨rfl, rfl⟩

theorem ivf_flat_main_status5 {argv : List String} (h5 : argv.length = 5) :
    (ivf_flat_main argv).status = RunStatus.ok ∨
      (ivf_flat_main argv).status = RunStatus.fatal := by
  unfold ivf_flat_main
  rw [if_neg (by omega)]
  split
  · exact Or.inr rfl
  · exact (ivf_bss_status _ _ _).1

theorem cagra_main_status5 {argv : List String} (h5 : argv.length = 5) :
    (cagra_main argv).status = RunStatus.ok ∨
      (cagra_main argv).status = RunStatus.fatal := by
  unfold cagra_main
  rw [if_neg (by omega)]
  split
  · exact Or.inr rfl
  · exact (cagra_bss_status _ _ _).1

/-- C9: for vectors of identical dimensionality the distance is symmetric,
non-negative and zero exactly on equal vectors; `distance` has no side
effects (it is a pure function of its arguments) and fails exactly on
dimension mismatch. -/
theorem C9_distance_metric_contract :
    ∀ a b : Vec,
      (a.length = b.length →
        distance a b = some (sqDist a b) ∧ sqDist a b = sqDist b a ∧
        0 ≤ sqDist a b ∧ (sqDist a b = 0 ↔ a = b)) ∧
      (distance a b = none ↔ a.length ≠ b.length) := by
  intro a b
  constructor
  · intro h
    exact ⟨by simp [distance, h], sqDist_comm a b, sqDist_nonneg a b,
      sqDist_eq_zero_iff h⟩
  · constructor
    · intro hn he
      simp [distance, he] at hn
    · intro hne
      simp [distance, hne]

/-- Witness for C9 at the concrete pair `[1, 2]`, `[3, 5]`. -/
theorem C9_distance_metric_contract_witness :
    distance [1, 2] [3, 5] = some (sqDist [1, 2] [3, 5]) ∧
      sqDist [1, 2] [3, 5] = sqDist [3, 5] [1, 2] ∧
      0 ≤ sqDist [1, 2] [3, 5] ∧
      (sqDist [1, 2] [3, 5] = 0 ↔ ([1, 2] : Vec) = [3, 5]) :=
  (C9_distance_metric_contract [1, 2] [3, 5]).1 rfl

/-- C6: a successfully built Proximity-Graph Index over `n` vectors with
degree bound `D` has exactly `n` adjacency lists, each of length at most
`D`, and no node lists itself as a neighbour. -/
theorem C6_graph_degree_bound :
    ∀ (ds : List Vec) (D : Nat) (g : CagraIndex), cagra_build ds D = some g →
      g.graph.length = ds.length ∧
      (∀ l ∈ g.graph, l.length ≤ D) ∧
      (∀ i, i < ds.length → i ∉ g.graph.getD i []) := by
  intro ds D g hb
  obtain ⟨hD, hne, hg⟩ := cagra_build_eq_some hb
  subst hg
  refine ⟨by simp, ?_, ?_⟩
  · intro l hl
    obtain ⟨i, hi, rfl⟩ := List.mem_map.mp hl
    exact cagraNeighbors_length_le ds D i
  · intro i hi
    show i ∉ ((List.range ds.length).map (cagraNeighbors ds D)).getD i []
    rw [List.getD_eq_getElem _ _ (by simpa using hi), List.getElem_map,
      List.getElem_range]
    exact cagraNeighbors_no_self ds D i

/-- Witness for C6 on a concrete three-point build with `graph_degree = 1`. -/
theorem C6_graph_degree_bound_witness :
    (⟨[[0], [3], [9]], [[1], [0], [1]], [0]⟩ : CagraIndex).graph.length =
        ([[0], [3], [9]] : List Vec).length ∧
      0 ∉ (⟨[[0], [3], [9]], [[1], [0], [1]], [0]⟩ : CagraIndex).graph.getD 0 [] :=
  ⟨(C6_graph_degree_bound [[0], [3], [9]] 1
      ⟨[[0], [3], [9]], [[1], [0], [1]], [0]⟩ (by decide)).1,
    (C6_graph_degree_bound [[0], [3], [9]] 1
      ⟨[[0], [3], [9]], [[1], [0], [1]], [0]⟩ (by decide)).2.2 0 (by decide)⟩

/-- C5: the inverted lists of a built Partition Index partition `[0, n)` —
every id lies in exactly one list, the union is the full id range, distinct
lists are disjoint — and with non-degenerate data (at least `n_lists`
distinct training points, uniform dimension `d`) no list is empty. -/
theorem C5_partition_coverage :
    ∀ (ps : IvfIndexParams) (ds : List Vec) (idx : IvfFlatIndex) (d : Nat),
      ivf_flat_build ps ds = some idx →
      (∀ i, i < ds.length →
        ∃! j, j < idx.lists.length ∧ i ∈ idx.lists.getD j []) ∧
      (∀ i, (∃ j, j < idx.lists.length ∧ i ∈ idx.lists.getD j []) ↔
        i < ds.length) ∧
      (∀ j j', j ≠ j' →
        List.Disjoint (idx.lists.getD j []) (idx.lists.getD j' [])) ∧
      ((∀ v ∈ ds, v.length = d) →
        ps.n_lists ≤ (ivfTrainset ps ds).dedup.length →
        ∀ j, j < idx.lists.length → idx.lists.getD j [] ≠ []) := by
  intro ps ds idx d hb
  refine ⟨ivf_partition hb, ivf_coverage hb, ?_,
    fun hdim hnd => ivf_lists_nonempty hb d hdim hnd⟩
  intro j j' hne
  obtain ⟨-, -, -, hidx⟩ := ivf_flat_build_eq_some hb
  subst hidx
  exact ivfLists_disjoint hne

/-- Witness for C5 on a concrete two-point, two-list build. -/
theorem C5_partition_coverage_witness :
    (∃! j, j < ((ivf_flat_build ⟨2, ⟨1, 1⟩⟩ [[0], [5]]).getD
        ⟨[], [], []⟩).lists.length ∧
      0 ∈ ((ivf_flat_build ⟨2, ⟨1, 1⟩⟩ [[0], [5]]).getD ⟨[], [], []⟩).lists.getD j []) ∧
    ((ivf_flat_build ⟨2, ⟨1, 1⟩⟩ [[0], [5]]).getD ⟨[], [], []⟩).lists.getD 1 [] ≠ [] :=
  ⟨(C5_partition_coverage ⟨2, ⟨1, 1⟩⟩ [[0], [5]] _ 1 (by decide)).1 0 (by decide),
    (C5_partition_coverage ⟨2, ⟨1, 1⟩⟩ [[0], [5]] _ 1 (by decide)).2.2.2
      (by decide) (by decide) 1 (by decide)⟩

/-- C4 counterexample: with `n_lists = 0` on a non-empty one-point dataset,
neither of the claim's failure conditions (`n_lists > n`, empty dataset)
holds, yet no index can be produced — zero centroids cannot carry inverted
lists covering id `0` — and the build fails. -/
theorem C4_counterexample :
    ivf_flat_build ⟨0, ⟨1, 1⟩⟩ [[0]] = none ∧
      ¬(([[0]] : List Vec).length < 0 ∨ ([[0]] : List Vec) = []) := by
  exact ⟨by decide, by decide⟩

/-- C4 (amended): Partition Index build fails exactly when `n_lists = 0`,
`n_lists > n`, or the dataset is empty; otherwise it returns an index with
`n_lists` centroids and inverted lists covering all `n` ids. -/
theorem C4_build_contract :
    ∀ (ps : IvfIndexParams) (ds : List Vec),
      (ivf_flat_build ps ds = none ↔
        ps.n_lists = 0 ∨ ds.length < ps.n_lists ∨ ds = []) ∧
      (∀ idx, ivf_flat_build ps ds = some idx →
        idx.centroids.length = ps.n_lists ∧
        idx.lists.length = ps.n_lists ∧
        (∀ i, (∃ j, j < idx.lists.length ∧ i ∈ idx.lists.getD j []) ↔
          i < ds.length)) := by
  intro ps ds
  refine ⟨ivf_flat_build_eq_none, ?_⟩
  intro idx hb
  obtain ⟨hL0, hLn, hne, hidx⟩ := ivf_flat_build_eq_some hb
  refine ⟨?_, ?_, ivf_coverage hb⟩
  · rw [hidx]
    exact ivfCentroids_length _ _
  · rw [hidx]
    show (ivfLists _ _).length = _
    rw [ivfLists_length, ivfCentroids_length]

/-- Witness for C4 on a concrete successful two-point, two-list build. -/
theorem C4_build_contract_witness :
    ((ivf_flat_build ⟨2, ⟨1, 1⟩⟩ [[0], [5]]).getD ⟨[], [], []⟩).centroids.length =
      (⟨2, ⟨1, 1⟩⟩ : IvfIndexParams).n_lists :=
  ((C4_build_contract ⟨2, ⟨1, 1⟩⟩ [[0], [5]]).2 _ (by decide)).1

/-- C1 counterexample: a Partition Index over `n = 4` vectors searched with
`k = 3` and `n_probes = 1` returns only 2 results — the probed list holds
fewer than `k` candidates — although `n ≥ k`. -/
theorem C1_counterexample :
    ivf_flat_build ⟨2, ⟨1, 1⟩⟩ [[0], [0], [100], [100]] =
      some ⟨[[0], [0], [100], [100]], [[0], [100]], [[0, 1], [2, 3]]⟩ ∧
    ([[0], [0], [100], [100]] : List Vec).length = 4 ∧
    (ivf_flat_search
        (⟨[[0], [0], [100], [100]], [[0], [100]], [[0, 1], [2, 3]]⟩ : IvfFlatIndex)
        [0] 1 3).length = 2 := by
  exact ⟨by decide, by decide, by decide⟩

/-- C1 (amended): per query, search returns exactly `min k c` pairs sorted
by non-decreasing distance, where `c` counts the candidates actually
examined (contents of the probed lists for the Partition Index, visited
nodes for the Proximity-Graph Index); when every list is probed
(`n_probes ≥ n_lists`) the candidate count is `n`, giving exactly
`min k n` results. -/
theorem C1_result_size_sorted :
    (∀ (idx : IvfFlatIndex) (q : Vec) (p k : Nat),
      (ivf_flat_search idx q p k).length = min k (ivfCands idx q p).length ∧
      List.Sorted (fun a b : Nat × Int => a.2 ≤ b.2) (ivf_flat_search idx q p k)) ∧
    (∀ (g : CagraIndex) (q : Vec) (w k : Nat),
      (cagra_search g q w k).length = min k (cagraVisited g q w).length ∧
      List.Sorted (fun a b : Nat × Int => a.2 ≤ b.2) (cagra_search g q w k)) ∧
    (∀ (ps : IvfIndexParams) (ds : List Vec) (idx : IvfFlatIndex) (q : Vec)
      (p k : Nat), ivf_flat_build ps ds = some idx → ps.n_lists ≤ p →
      (ivf_flat_search idx q p k).length = min k ds.length) := by
  refine ⟨?_, ?_, ?_⟩
  · intro idx q p k
    exact ⟨searchResult_length _ _ _ _, searchResult_sorted _ _ _ _⟩
  · intro g q w k
    exact ⟨searchResult_length _ _ _ _, searchResult_sorted _ _ _ _⟩
  · intro ps ds idx q p k hb hp
    show (searchResult idx.data q k (ivfCands idx q p)).length = min k ds.length
    rw [searchResult_length, ivfCands_full_length hb q hp]

/-- Witness for C1 (amended) at a full probe of the concrete index:
`min 3 4 = 3` results. -/
theorem C1_result_size_sorted_witness :
    (ivf_flat_search
        (⟨[[0], [0], [100], [100]], [[0], [100]], [[0, 1], [2, 3]]⟩ : IvfFlatIndex)
        [0] 2 3).length = min 3 ([[0], [0], [100], [100]] : List Vec).length :=
  C1_result_size_sorted.2.2 ⟨2, ⟨1, 1⟩⟩ [[0], [0], [100], [100]] _ [0] 2 3
    (by decide) (by decide)

/-- C7: in the results of either built index, equal-distance entries appear
in ascending dataset-id order, and repeated runs with the same index and
query give identical results (both search procedures are pure functions of
their arguments, so reproducibility is definitional). -/
theorem C7_deterministic_ties :
    (∀ (ps : IvfIndexParams) (ds : List Vec) (idx : IvfFlatIndex) (q : Vec)
      (p k : Nat), ivf_flat_build ps ds = some idx →
      ∀ i j (hi : i < (ivf_flat_search idx q p k).length)
        (hj : j < (ivf_flat_search idx q p k).length), i < j →
        ((ivf_flat_search idx q p k).get ⟨i, hi⟩).2 =
          ((ivf_flat_search idx q p k).get ⟨j, hj⟩).2 →
        ((ivf_flat_search idx q p k).get ⟨i, hi⟩).1 <
          ((ivf_flat_search idx q p k).get ⟨j, hj⟩).1) ∧
    (∀ (ds : List Vec) (D : Nat) (g : CagraIndex) (q : Vec) (w k : Nat),
      cagra_build ds D = some g →
      ∀ i j (hi : i < (cagra_search g q w k).length)
        (hj : j < (cagra_search g q w k).length), i < j →
        ((cagra_search g q w k).get ⟨i, hi⟩).2 =
          ((cagra_search g q w k).get ⟨j, hj⟩).2 →
        ((cagra_search g q w k).get ⟨i, hi⟩).1 <
          ((cagra_search g q w k).get ⟨j, hj⟩).1) ∧
    (∀ (idx : IvfFlatIndex) (q : Vec) (p k : Nat),
      ivf_flat_search idx q p k = ivf_flat_search idx q p k) ∧
    (∀ (g : CagraIndex) (q : Vec) (w k : Nat),
      cagra_search g q w k = cagra_search g q w k) := by
  refine ⟨?_, ?_, fun _ _ _ _ => rfl, fun _ _ _ _ => rfl⟩
  · intro ps ds idx q p k hb i j hi hj hij heq
    have hnod : (ivfCands idx q p).Nodup := by
      obtain ⟨-, -, -, hidx⟩ := ivf_flat_build_eq_some hb
      exact ivfCands_nodup (by rw [hidx]) q p
    exact searchResult_ties idx.data q k hnod hi hj hij heq
  · intro ds D g q w k hb i j hi hj hij heq
    exact searchResult_ties g.data q k (cagraVisited_nodup hb q w) hi hj hij heq

/-- Witness for C7: the two zero-distance ties of a concrete search come
back as id `0` before id `1`. -/
theorem C7_deterministic_ties_witness :
    ((ivf_flat_search (⟨[[0], [0]], [[0]], [[0, 1]]⟩ : IvfFlatIndex) [0] 1 2).get
        ⟨0, by decide⟩).1 <
      ((ivf_flat_search (⟨[[0], [0]], [[0]], [[0, 1]]⟩ : IvfFlatIndex) [0] 1 2).get
        ⟨1, by decide⟩).1 :=
  C7_deterministic_ties.1 ⟨1, ⟨1, 1⟩⟩ [[0], [0]] _ [0] 1 2 (by decide) 0 1
    (by decide) (by decide) (by decide) (by decide)

/-- C8: for a fixed built index and query, increasing `n_probes`
(Partition) or the traversal width (Graph) never decreases the overlap of
the returned ids with the brute-force true top-k. -/
theorem C8_monotone_recall :
    (∀ (ps : IvfIndexParams) (ds : List Vec) (idx : IvfFlatIndex) (q : Vec)
      (k p p' : Nat), ivf_flat_build ps ds = some idx → p ≤ p' →
      recallOverlap (ivf_flat_search idx q p k) (trueTopK ds q k) ≤
        recallOverlap (ivf_flat_search idx q p' k) (trueTopK ds q k)) ∧
    (∀ (ds : List Vec) (D : Nat) (g : CagraIndex) (q : Vec) (k w w' : Nat),
      cagra_build ds D = some g → w ≤ w' →
      recallOverlap (cagra_search g q w k) (trueTopK ds q k) ≤
        recallOverlap (cagra_search g q w' k) (trueTopK ds q k)) := by
  constructor
  · intro ps ds idx q k p p' hb hpp
    obtain ⟨-, -, -, hidx⟩ := ivf_flat_build_eq_some hb
    have hll : idx.lists =
        ivfLists (ivfCentroids (ivfTrainset ps ds) ps.n_lists) ds := by rw [hidx]
    have hdata : idx.data = ds := by rw [hidx]
    show recallOverlap (searchResult idx.data q k (ivfCands idx q p)) _ ≤
      recallOverlap (searchResult idx.data q k (ivfCands idx q p')) _
    rw [hdata]
    exact recallOverlap_mono ds q k (ivfCands_nodup hll q p)
      (ivfCands_nodup hll q p') (ivfCands_mono idx q hpp) (ivfCands_subset hll q p')
  · intro ds D g q k w w' hb hww
    have hdata : g.data = ds := by
      obtain ⟨-, -, hg⟩ := cagra_build_eq_some hb
      rw [hg]
    show recallOverlap (searchResult g.data q k (cagraVisited g q w)) _ ≤
      recallOverlap (searchResult g.data q k (cagraVisited g q w')) _
    rw [hdata]
    exact recallOverlap_mono ds q k (cagraVisited_nodup hb q w)
      (cagraVisited_nodup hb q w') (cagraVisited_mono g q hww)
      (cagraVisited_subset hb q w')

/-- Witness for C8 at the concrete index with probes 1 ≤ 2. -/
theorem C8_monotone_recall_witness :
    recallOverlap
        (ivf_flat_search
          (⟨[[0], [0], [100], [100]], [[0], [100]], [[0, 1], [2, 3]]⟩ : IvfFlatIndex)
          [0] 1 3)
        (trueTopK [[0], [0], [100], [100]] [0] 3) ≤
      recallOverlap
        (ivf_flat_search
          (⟨[[0], [0], [100], [100]], [[0], [100]], [[0, 1], [2, 3]]⟩ : IvfFlatIndex)
          [0] 2 3)
        (trueTopK [[0], [0], [100], [100]] [0] 3) :=
  C8_monotone_recall.1 ⟨2, ⟨1, 1⟩⟩ [[0], [0], [100], [100]] _ [0] 3 1 2
    (by decide) (by decide)

theorem ivf_flat_main_build_params {argv : List String}
    (h : (ivf_flat_main argv).buildAttempted = true) :
    (ivf_flat_main argv).nListsUsed = some 1024 ∧
      (ivf_flat_main argv).trainFractionUsed = some ⟨1, 10⟩ := by
  unfold ivf_flat_main at h ⊢
  split at h
  · simp at h
  · next hcond =>
    rw [if_neg hcond]
    split at h
    · next hneg => rw [if_pos hneg]; simp at h
    · next hneg =>
      rw [if_neg hneg]
      exact ⟨(ivf_bss_status _ _ _).2.2.1, (ivf_bss_status _ _ _).2.2.2⟩

/-- C2 counterexample: a run with exactly four positional arguments whose
build fails (`n_samples = 5 < 1024 = n_lists`) does not exit with code 0 —
the failed build aborts the process. -/
theorem C2_counterexample :
    (["prog", "5", "2", "3", "4"] : List String).length = 5 ∧
      (ivf_flat_main ["prog", "5", "2", "3", "4"]).status = RunStatus.fatal ∧
      exitCode (ivf_flat_main ["prog", "5", "2", "3", "4"]).status ≠ some 0 := by
  exact ⟨by decide, by decide, by decide⟩

/-- C2 (amended): with a wrong argument count both programs print usage and
exit 1 before any build/search work; with four arguments they run the
pipeline and either fall off `main` (exit 0) or die on a fatal build
error — exit 0 is not guaranteed. -/
theorem C2_cli_contract :
    (∀ argv : List String, argv.length ≠ 5 →
      (ivf_flat_main argv).status = RunStatus.usage ∧
      (ivf_flat_main argv).buildAttempted = false ∧
      (cagra_main argv).status = RunStatus.usage ∧
      (cagra_main argv).buildAttempted = false) ∧
    (∀ argv : List String, argv.length = 5 →
      ((ivf_flat_main argv).status = RunStatus.ok ∨
        (ivf_flat_main argv).status = RunStatus.fatal) ∧
      ((cagra_main argv).status = RunStatus.ok ∨
        (cagra_main argv).status = RunStatus.fatal)) ∧
    exitCode RunStatus.usage = some 1 ∧ exitCode RunStatus.ok = some 0 ∧
      exitCode RunStatus.fatal = none := by
  refine ⟨?_, ?_, rfl, rfl, rfl⟩
  · intro argv h
    unfold ivf_flat_main cagra_main
    simp only [if_pos h]
    exact ⟨trivial, trivial, trivial, trivial⟩
  · intro argv h5
    exact ⟨ivf_flat_main_status5 h5, cagra_main_status5 h5⟩

/-- Witness for C2 (amended) at a one-argument invocation. -/
theorem C2_cli_contract_witness :
    (ivf_flat_main ["prog"]).status = RunStatus.usage ∧
      (ivf_flat_main ["prog"]).buildAttempted = false ∧
      (cagra_main ["prog"]).status = RunStatus.usage ∧
      (cagra_main ["prog"]).buildAttempted = false :=
  C2_cli_contract.1 ["prog"] (by decide)

/-- C3 counterexample: the malformed argument "abc" is silently converted
to 0 by `atoi`, and the program proceeds into dataset generation and the
build attempt instead of failing fast before any build/search work. -/
theorem C3_counterexample :
    atoi "abc" = 0 ∧
      (ivf_flat_main ["prog", "abc", "2", "3", "4"]).buildAttempted = true ∧
      (ivf_flat_main ["prog", "abc", "2", "3", "4"]).status = RunStatus.fatal := by
  exact ⟨by decide, by decide, by decide⟩

/-- C3 (amended): with four arguments the programs never report a
parse-time error — `atoi` silently maps malformed text to its numeric
prefix (0 when none) — and configuration errors surface only at build
time, where a failing build is fatal and no search work happens. -/
theorem C3_config_error_handling :
    (∀ argv : List String, argv.length = 5 →
      (ivf_flat_main argv).status ≠ RunStatus.usage ∧
      (cagra_main argv).status ≠ RunStatus.usage) ∧
    (∀ (ds qs : List Vec) (k : Nat),
      ivf_flat_build ivfExampleIndexParams ds = none →
      (ivf_flat_build_search_simple ds qs k).status = RunStatus.fatal ∧
      (ivf_flat_build_search_simple ds qs k).searchAttempted = false) ∧
    (∀ (ds qs : List Vec) (k : Nat),
      cagra_build ds cagraDefaultGraphDegree = none →
      (cagra_build_search_simple ds qs k).status = RunStatus.fatal ∧
      (cagra_build_search_simple ds qs k).searchAttempted = false) ∧
    atoi "abc" = 0 ∧ atoi "10x" = 10 := by
  refine ⟨?_, fun ds qs k h => ivf_bss_fail h qs k,
    fun ds qs k h => cagra_bss_fail h qs k, by decide, by decide⟩
  intro argv h5
  constructor
  · rcases ivf_flat_main_status5 h5 with h | h <;> rw [h] <;> decide
  · rcases cagra_main_status5 h5 with h | h <;> rw [h] <;> decide

/-- Witness for C3 (amended): the empty dataset is a build-time
configuration error — fatal, with no search attempted. -/
theorem C3_config_error_handling_witness :
    (ivf_flat_build_search_simple [] [] 0).status = RunStatus.fatal ∧
      (ivf_flat_build_search_simple [] [] 0).searchAttempted = false :=
  C3_config_error_handling.2.1 [] [] 0 (by decide)

/-- C10: the IVF-Flat example always builds with `n_lists = 1024` and
`kmeans_trainset_fraction = 0.1` and always searches with `n_probes = 50`;
none of these depend on the command line, and any run with
`n_samples < 1024` attempts a build whose `n_lists` exceeds the dataset
size (which is fatal). -/
theorem C10_fixed_parameters :
    (∀ (ds qs : List Vec) (k : Nat),
      (ivf_flat_build_search_simple ds qs k).nListsUsed = some 1024 ∧
      (ivf_flat_build_search_simple ds qs k).trainFractionUsed = some ⟨1, 10⟩ ∧
      (ivf_flat_build_search_simple ds qs k).buildAttempted = true) ∧
    (∀ (ds qs : List Vec) (k : Nat),
      (ivf_flat_build_search_simple ds qs k).searchAttempted = true →
      (ivf_flat_build_search_simple ds qs k).nProbesUsed = some 50) ∧
    (∀ argv argv' : List String,
      (ivf_flat_main argv).buildAttempted = true →
      (ivf_flat_main argv').buildAttempted = true →
      (ivf_flat_main argv).nListsUsed = (ivf_flat_main argv').nListsUsed ∧
      (ivf_flat_main argv).trainFractionUsed =
        (ivf_flat_main argv').trainFractionUsed) ∧
    (∀ argv : List String, argv.length = 5 →
      ¬(atoi (argv.getD 1 "") < 0 ∨ atoi (argv.getD 2 "") < 0 ∨
        atoi (argv.getD 3 "") < 0 ∨ atoi (argv.getD 4 "") < 0) →
      (atoi (argv.getD 1 "")).toNat < 1024 →
      (ivf_flat_main argv).buildAttempted = true ∧
      (ivf_flat_main argv).nListsUsed = some 1024 ∧
      (ivf_flat_main argv).status = RunStatus.fatal) := by
  refine ⟨?_, ?_, ?_, ?_⟩
  · intro ds qs k
    exact ⟨(ivf_bss_status ds qs k).2.2.1, (ivf_bss_status ds qs k).2.2.2,
      (ivf_bss_status ds qs k).2.1⟩
  · intro ds qs k h
    unfold ivf_flat_build_search_simple at h ⊢
    cases hb : ivf_flat_build ivfExampleIndexParams ds
    · rw [hb] at h; simp at h
    · rfl
  · intro a a' h h'
    obtain ⟨h1, h2⟩ := ivf_flat_main_build_params h
    obtain ⟨h1', h2'⟩ := ivf_flat_main_build_params h'
    exact ⟨h1.trans h1'.symm, h2.trans h2'.symm⟩
  · intro argv h5 hnn hlt
    unfold ivf_flat_main
    rw [if_neg (by omega), if_neg hnn]
    have hbn : ivf_flat_build ivfExampleIndexParams
        (generate_dataset (atoi (argv.getD 1 "")).toNat
          (atoi (argv.getD 3 "")).toNat) = none := by
      rw [ivf_flat_build_eq_none]
      right; left
      show (generate_dataset _ _).length < ivfExampleIndexParams.n_lists
      unfold generate_dataset
      rw [List.length_replicate]
      exact hlt
    exact ⟨(ivf_bss_status _ _ _).2.1, (ivf_bss_status _ _ _).2.2.1,
      (ivf_bss_fail hbn _ _).1⟩

/-- Witness for C10 at `n_samples = 5`. -/
theorem C10_fixed_parameters_witness :
    (ivf_flat_main ["prog", "5", "2", "3", "4"]).buildAttempted = true ∧
      (ivf_flat_main ["prog", "5", "2", "3", "4"]).nListsUsed = some 1024 ∧
      (ivf_flat_main ["prog", "5", "2", "3", "4"]).status = RunStatus.fatal :=
  C10_fixed_parameters.2.2.2 ["prog", "5", "2", "3", "4"] (by decide) (by decide)
    (by decide)
